import Mathlib

/-!
Shallow embedding of `src/idea_generator_app.py` (Idea AI Generator II) and
proofs of the spec's testable properties.

Conventions of the embedding:
* Python `float` values parsed out of decimal numerals are modelled as `ℚ`
  (the parse of a decimal numeral is exact at the granularity the spec uses).
* A pandas cell that may be NaN is modelled as `Option String` (`none` = NaN).
* Remote API calls are modelled as oracles: a function from the attempt
  number to `Except ε α` (`.error` = the call raised, `.ok` = its reply).
* `time.sleep` and UI messages are modelled as data: each retry wrapper also
  returns the list of sleep durations and the number of attempts it made.
* A Python function that can fall off its end returns `Option` (`none` =
  implicit `return None` when the retry loop body never runs).
-/

namespace IdeaGen

/-! ### `extract_percentage` (lines 76-85)

Python: a regex search for the pattern \d+(?:\.\d+)? over str(percentage_str),
then float(match.group(1)), else 0.0; any exception degrades to 0.0.
The pattern is compiled without re.ASCII, so \d matches every Unicode
decimal digit (category Nd), e.g. the full-width ７; float() parses those
digits by their decimal value.  Nd characters come in blocks of ten
consecutive code points with values 0..9; the blocks below are Unicode
14.0.0, the database of the CPython 3.11 this application targets. -/

/-- The zero code point of every Unicode 14.0.0 Nd block: character `c` is
a decimal digit of value `c - z` exactly when some `z` below satisfies
`z ≤ c ≤ z + 9`. -/
def ndZeroPoints : List ℕ :=
  [0x30, 0x660, 0x6F0, 0x7C0, 0x966, 0x9E6, 0xA66, 0xAE6, 0xB66, 0xBE6,
  0xC66, 0xCE6, 0xD66, 0xDE6, 0xE50, 0xED0, 0xF20, 0x1040, 0x1090, 0x17E0,
  0x1810, 0x1946, 0x19D0, 0x1A80, 0x1A90, 0x1B50, 0x1BB0, 0x1C40, 0x1C50,
  0xA620, 0xA8D0, 0xA900, 0xA9D0, 0xA9F0, 0xAA50, 0xABF0, 0xFF10, 0x104A0,
  0x10D30, 0x11066, 0x110F0, 0x11136, 0x111D0, 0x112F0, 0x11450, 0x114D0,
  0x11650, 0x116C0, 0x11730, 0x118E0, 0x11950, 0x11C50, 0x11D50, 0x11DA0,
  0x16A60, 0x16AC0, 0x16B50, 0x1D7CE, 0x1D7D8, 0x1D7E2, 0x1D7EC, 0x1D7F6,
  0x1E140, 0x1E2F0, 0x1E950, 0x1FBF0]

/-- The decimal value of a Unicode Nd digit, `none` for any other
character: the digit class of the regex \d and the digit parse of
float(). -/
def pyDigitVal (c : Char) : Option ℕ :=
  (ndZeroPoints.find? fun z => z ≤ c.toNat && c.toNat ≤ z + 9).map
    fun z => c.toNat - z

/-- Python \d without re.ASCII: is the character a Unicode decimal
digit? -/
def pyIsDigit (c : Char) : Bool :=
  (pyDigitVal c).isSome

/-- Value of a list of decimal digit characters, most significant first,
each digit contributing its Unicode decimal value (as float() parses
them). -/
def digitsToNat (ds : List Char) : ℕ :=
  ds.foldl (fun a c => 10 * a + (pyDigitVal c).getD 0) 0

/-- Split off the maximal leading run of digits (the greedy `\d+`). -/
def takeDigits : List Char → List Char × List Char
  | [] => ([], [])
  | c :: rest =>
    if pyIsDigit c then
      let p := takeDigits rest
      (c :: p.1, p.2)
    else ([], c :: rest)

/-- Exact value of a numeral with integer digits `intds` and fractional
digits `fds` (empty `fds` = no fractional part). -/
def numberValue (intds fds : List Char) : ℚ :=
  if fds = [] then (digitsToNat intds : ℚ)
  else (digitsToNat intds : ℚ) + (digitsToNat fds : ℚ) / (10 : ℚ) ^ fds.length

/-- Leftmost match of `\d+(?:\.\d+)?`: skip to the first digit, take the
maximal digit run, then a fractional part only if a `.` followed by at
least one digit comes next (the regex backtracks off a bare `.`). -/
def firstNumber : List Char → Option ℚ
  | [] => none
  | c :: rest =>
    if pyIsDigit c then
      let ip := takeDigits (c :: rest)
      match ip.2 with
      | '.' :: r2 =>
        let fp := takeDigits r2
        if fp.1 = [] then some (numberValue ip.1 [])
        else some (numberValue ip.1 fp.1)
      | _ => some (numberValue ip.1 [])
    else firstNumber rest

/-- `extract_percentage`: first decimal number in the text, else `0.0`.
Total by construction (the Python wraps everything in `try/except` and
`str(...)`, so no input raises). -/
def extract_percentage (s : String) : ℚ :=
  (firstNumber s.data).getD 0

/-- The characters of a decimal-number token: integer digits, then a `.`
and fractional digits when the fractional part is present. -/
def numToken (intds fds : List Char) : List Char :=
  intds ++ if fds = [] then [] else '.' :: fds

/-! Helper lemmas for the extractor. -/

lemma firstNumber_of_no_digit {l : List Char} (h : ∀ c ∈ l, pyIsDigit c = false) :
    firstNumber l = none := by
  induction l with
  | nil => rfl
  | cons c rest ih =>
    have hc : pyIsDigit c = false := h c (List.mem_cons_self c rest)
    simp only [firstNumber, hc, Bool.false_eq_true, if_false]
    exact ih fun d hd => h d (List.mem_cons_of_mem c hd)

lemma firstNumber_append_of_no_digit {pre l : List Char}
    (h : ∀ c ∈ pre, pyIsDigit c = false) :
    firstNumber (pre ++ l) = firstNumber l := by
  induction pre with
  | nil => rfl
  | cons c rest ih =>
    have hc : pyIsDigit c = false := h c (List.mem_cons_self c rest)
    simp only [List.cons_append, firstNumber, hc, Bool.false_eq_true, if_false]
    exact ih fun d hd => h d (List.mem_cons_of_mem c hd)

lemma takeDigits_of_digits {ds rest : List Char}
    (hds : ∀ c ∈ ds, pyIsDigit c = true)
    (hrest : ∀ c, rest.head? = some c → pyIsDigit c = false) :
    takeDigits (ds ++ rest) = (ds, rest) := by
  induction ds with
  | nil =>
    cases rest with
    | nil => rfl
    | cons c r =>
      have hc : pyIsDigit c = false := hrest c rfl
      simp [takeDigits, hc]
  | cons c ds ih =>
    have hc : pyIsDigit c = true := hds c (List.mem_cons_self c ds)
    have := ih (fun d hd => hds d (List.mem_cons_of_mem c hd))
    simp [takeDigits, hc, this]

lemma firstNumber_numToken {intds fds post : List Char}
    (hi : intds ≠ []) (hid : ∀ c ∈ intds, pyIsDigit c = true)
    (hfd : ∀ c ∈ fds, pyIsDigit c = true)
    (hpost : ∀ c, post.head? = some c → pyIsDigit c = false)
    (hdot : fds = [] → ∀ d ds, post = '.' :: d :: ds → pyIsDigit d = false) :
    firstNumber (numToken intds fds ++ post) = some (numberValue intds fds) := by
  obtain ⟨c, ds, rfl⟩ : ∃ c ds, intds = c :: ds := by
    cases intds with
    | nil => exact absurd rfl hi
    | cons c ds => exact ⟨c, ds, rfl⟩
  have hc : pyIsDigit c = true := hid c (List.mem_cons_self c ds)
  by_cases hf : fds = []
  · subst hf
    have htok : numToken (c :: ds) [] ++ post = (c :: ds) ++ post := by
      simp [numToken]
    rw [htok]
    have htd : takeDigits ((c :: ds) ++ post) = (c :: ds, post) :=
      takeDigits_of_digits hid hpost
    rw [List.cons_append, firstNumber, hc, if_pos rfl]
    rw [← List.cons_append, htd]
    cases post with
    | nil => simp [numberValue, digitsToNat]
    | cons p rest =>
      by_cases hp : p = '.'
      · subst hp
        cases rest with
        | nil => simp [takeDigits, numberValue, digitsToNat]
        | cons d rest2 =>
          have hd : pyIsDigit d = false := hdot rfl d rest2 rfl
          simp [takeDigits, hd, numberValue, digitsToNat]
      · simp only []
        split
        · rename_i heq
          injection heq with h1 h2
          exact absurd h1 hp
        · rfl
  · have hdotc : pyIsDigit '.' = false := by decide
    have hre : numToken (c :: ds) fds ++ post = (c :: ds) ++ ('.' :: (fds ++ post)) := by
      simp [numToken, hf]
    rw [hre]
    have htd : takeDigits ((c :: ds) ++ ('.' :: (fds ++ post))) = (c :: ds, '.' :: (fds ++ post)) :=
      takeDigits_of_digits hid (by intro x hx; simp only [List.head?] at hx; injection hx with h; rw [← h]; exact hdotc)
    rw [List.cons_append, firstNumber, hc, if_pos rfl]
    rw [← List.cons_append, htd]
    have htd2 : takeDigits (fds ++ post) = (fds, post) := takeDigits_of_digits hfd hpost
    simp only [htd2, hf, if_false]

/-- C3: for every input containing a decimal number (Unicode decimal
digits with an optional fractional part, delimited so the regex match is
exactly that token), `extract_percentage` returns the first such number as
its exact value; for every input containing no digit it returns `0.0`; the
function is total (the Python wraps the parse in `try/except` over
`str(...)`, so no input raises). -/
theorem extract_percentage_spec (s : String) :
    ((∀ c ∈ s.data, pyIsDigit c = false) → extract_percentage s = 0) ∧
    (∀ pre intds fds post, s.data = pre ++ numToken intds fds ++ post →
      (∀ c ∈ pre, pyIsDigit c = false) → intds ≠ [] →
      (∀ c ∈ intds, pyIsDigit c = true) → (∀ c ∈ fds, pyIsDigit c = true) →
      (∀ c, post.head? = some c → pyIsDigit c = false) →
      (fds = [] → ∀ d ds, post = '.' :: d :: ds → pyIsDigit d = false) →
      extract_percentage s = numberValue intds fds) := by
  constructor
  · intro h
    unfold extract_percentage
    rw [firstNumber_of_no_digit h]
    rfl
  · intro pre intds fds post hdecomp hpre hi hid hfd hpost hdot
    unfold extract_percentage
    rw [hdecomp, List.append_assoc, firstNumber_append_of_no_digit hpre,
      firstNumber_numToken hi hid hfd hpost hdot]
    rfl

/-- Witness for C3 at the spec's concrete examples plus a full-width digit
input: `"関連度は75%です"` → `75`, `"no number here"` → `0`, `"3.5"` →
`3.5`, and the Unicode full-width `"７５"` → `75`. -/
theorem extract_percentage_spec_witness :
    extract_percentage "関連度は75%です" = 75 ∧
    extract_percentage "no number here" = 0 ∧
    extract_percentage "3.5" = 7 / 2 ∧
    extract_percentage "７５" = 75 := by
  refine ⟨?_, ?_, ?_, ?_⟩
  · have h := (extract_percentage_spec "関連度は75%です").2
      "関連度は".data ['7', '5'] [] "%です".data (by decide) (by decide)
      (by decide) (by decide) (by decide)
      (by intro c hc; injection hc with h1; rw [← h1]; decide)
      (by intro _ d ds hh
          rw [show ("%です").data = '%' :: 'で' :: 'す' :: [] from rfl] at hh
          injection hh with h1 h2
          exact absurd h1 (by decide))
    rw [h]
    norm_num [numberValue, show digitsToNat ['7', '5'] = 75 from rfl,
      show digitsToNat [] = 0 from rfl]
  · exact (extract_percentage_spec "no number here").1 (by decide)
  · have h := (extract_percentage_spec "3.5").2
      [] ['3'] ['5'] [] (by decide) (by decide) (by decide) (by decide)
      (by decide) (by intro c hc; simp at hc)
      (by intro hh; exact absurd hh (by decide))
    rw [h]
    norm_num [numberValue, show digitsToNat ['3'] = 3 from rfl,
      show digitsToNat ['5'] = 5 from rfl]
  · have h := (extract_percentage_spec "７５").2
      [] ['７', '５'] [] [] (by decide) (by decide) (by decide) (by decide)
      (by decide) (by intro c hc; simp at hc)
      (by intro _ d ds hh; simp at hh)
    rw [h]
    norm_num [numberValue, show digitsToNat ['７', '５'] = 75 from rfl]

/-! ### Retry wrappers (lines 109-142, 144-177, 179-226)

Each wrapper runs `for attempt in range(max_retries)`, returning the call's
reply on success; on an exception it sleeps `backoff_time * 2 ** attempt`
and retries while `attempt < max_retries - 1`.  On the final attempt the
scoring and synthesis wrappers `raise`; the image wrapper instead shows an
error message and `return None`. -/

/-- The backoff schedule `backoff·2^0, backoff·2^1, …, backoff·2^(k-1)`. -/
def retrySleeps (backoff k : ℕ) : List ℕ :=
  (List.range k).map fun i => backoff * 2 ^ i

/-- The retry loop of `generate_relevance_gemini` / `generate_solution_gemini`
started at attempt number `attempt`: returns the outcome (`.ok` = the
`return`, `.error` = the final `raise`), the list of sleep durations, and
the number of attempts made. -/
def retryAux {ε α : Type} (call : ℕ → Except ε α) (backoff maxRetries : ℕ) :
    ℕ → Except ε α × List ℕ × ℕ
  | attempt =>
    match call attempt with
    | .ok a => (.ok a, [], 1)
    | .error e =>
      if h : attempt < maxRetries - 1 then
        let r := retryAux call backoff maxRetries (attempt + 1)
        (r.1, backoff * 2 ^ attempt :: r.2.1, r.2.2 + 1)
      else (.error e, [], 1)
  termination_by attempt => maxRetries - attempt
  decreasing_by omega

/-- `generate_relevance_gemini`, retry behaviour (lines 125-142), with the
remote call abstracted as an oracle from attempt number to outcome.  When
`max_retries = 0` the loop body never runs and Python falls off the end of
the function (`none`). -/
def generate_relevance_gemini {ε α : Type} (call : ℕ → Except ε α)
    (maxRetries backoff : ℕ) : Option (Except ε α) × List ℕ × ℕ :=
  if maxRetries = 0 then (none, [], 0)
  else
    let r := retryAux call backoff maxRetries 0
    (some r.1, r.2)

/-- `generate_solution_gemini`, retry behaviour (lines 165-177): the loop is
duplicated verbatim in the source, so the embedding has the same body. -/
def generate_solution_gemini {ε α : Type} (call : ℕ → Except ε α)
    (maxRetries backoff : ℕ) : Option (Except ε α) × List ℕ × ℕ :=
  if maxRetries = 0 then (none, [], 0)
  else
    let r := retryAux call backoff maxRetries 0
    (some r.1, r.2)

/-- The parts loop of `generate_image_from_solution` (lines 211-217): return
the first part whose `inline_data` is not `None`; if none is found, show a
warning (`Bool` component) and return `None`. -/
def imageFromParts {α : Type} : List (Option α) → Option α × Bool
  | [] => (none, true)
  | some d :: _ => (some d, false)
  | none :: rest => imageFromParts rest

/-- What `generate_image_from_solution` hands back to its caller: the image
(if any), whether the no-image warning was shown, and whether the
exhausted-retries error message was shown. -/
structure ImageResult (α : Type) where
  image : Option α
  warned_no_image : Bool
  error_shown : Bool
  deriving DecidableEq

/-- The retry loop of `generate_image_from_solution` (lines 200-226).  Its
codomain allows an exception (`Except ε …`) so that the embedding can state
whether the function raises: on the final failed attempt the source shows
an error message and returns `None` — it never re-raises. -/
def imageRetryAux {ε α : Type} (call : ℕ → Except ε (List (Option α)))
    (backoff maxRetries : ℕ) : ℕ → Except ε (ImageResult α) × List ℕ × ℕ
  | attempt =>
    match call attempt with
    | .ok parts =>
      let p := imageFromParts parts
      (.ok ⟨p.1, p.2, false⟩, [], 1)
    | .error _ =>
      if h : attempt < maxRetries - 1 then
        let r := imageRetryAux call backoff maxRetries (attempt + 1)
        (r.1, backoff * 2 ^ attempt :: r.2.1, r.2.2 + 1)
      else (.ok ⟨none, false, true⟩, [], 1)
  termination_by attempt => maxRetries - attempt
  decreasing_by omega

/-- `generate_image_from_solution`, retry behaviour (lines 200-226). -/
def generate_image_from_solution {ε α : Type} (call : ℕ → Except ε (List (Option α)))
    (maxRetries backoff : ℕ) : Option (Except ε (ImageResult α)) × List ℕ × ℕ :=
  if maxRetries = 0 then (none, [], 0)
  else
    let r := imageRetryAux call backoff maxRetries 0
    (some r.1, r.2)

/-! Helper lemmas for the retry loops. -/

lemma retryAux_eq_ok {ε α : Type} {call : ℕ → Except ε α} {backoff maxRetries attempt : ℕ}
    {a : α} (h : call attempt = .ok a) :
    retryAux call backoff maxRetries attempt = (.ok a, [], 1) := by
  rw [retryAux, h]

lemma retryAux_eq_err {ε α : Type} {call : ℕ → Except ε α} {backoff maxRetries attempt : ℕ}
    {e : ε} (h : call attempt = .error e) :
    retryAux call backoff maxRetries attempt =
      if attempt < maxRetries - 1 then
        ((retryAux call backoff maxRetries (attempt + 1)).1,
          backoff * 2 ^ attempt :: (retryAux call backoff maxRetries (attempt + 1)).2.1,
          (retryAux call backoff maxRetries (attempt + 1)).2.2 + 1)
      else (.error e, [], 1) := by
  rw [retryAux, h]
  by_cases hc : attempt < maxRetries - 1 <;> simp [hc]

lemma imageRetryAux_eq_ok {ε α : Type} {call : ℕ → Except ε (List (Option α))}
    {backoff maxRetries attempt : ℕ} {parts : List (Option α)}
    (h : call attempt = .ok parts) :
    imageRetryAux call backoff maxRetries attempt =
      (.ok ⟨(imageFromParts parts).1, (imageFromParts parts).2, false⟩, [], 1) := by
  rw [imageRetryAux, h]

lemma imageRetryAux_eq_err {ε α : Type} {call : ℕ → Except ε (List (Option α))}
    {backoff maxRetries attempt : ℕ} {e : ε} (h : call attempt = .error e) :
    imageRetryAux call backoff maxRetries attempt =
      if attempt < maxRetries - 1 then
        ((imageRetryAux call backoff maxRetries (attempt + 1)).1,
          backoff * 2 ^ attempt :: (imageRetryAux call backoff maxRetries (attempt + 1)).2.1,
          (imageRetryAux call backoff maxRetries (attempt + 1)).2.2 + 1)
      else (.ok ⟨none, false, true⟩, [], 1) := by
  rw [imageRetryAux, h]
  by_cases hc : attempt < maxRetries - 1 <;> simp [hc]

lemma range_succ_sleeps (backoff attempt k : ℕ) :
    (List.range (k + 1)).map (fun i => backoff * 2 ^ (attempt + i)) =
      backoff * 2 ^ attempt :: (List.range k).map (fun i => backoff * 2 ^ (attempt + 1 + i)) := by
  rw [List.range_succ_eq_map, List.map_cons, List.map_map, Nat.add_zero]
  refine congrArg _ ?_
  refine List.map_congr_left fun i _ => ?_
  simp only [Function.comp]
  congr 1
  congr 1
  omega

lemma retryAux_success {ε α : Type} (call : ℕ → Except ε α) (backoff maxRetries : ℕ)
    (a : α) : ∀ (k attempt : ℕ),
    (∀ i < k, ∃ e, call (attempt + i) = .error e) →
    call (attempt + k) = .ok a → attempt + k ≤ maxRetries - 1 →
    retryAux call backoff maxRetries attempt =
      (.ok a, (List.range k).map (fun i => backoff * 2 ^ (attempt + i)), k + 1) := by
  intro k
  induction k with
  | zero =>
    intro attempt _ hok _
    rw [Nat.add_zero] at hok
    rw [retryAux_eq_ok hok]
    rfl
  | succ k ih =>
    intro attempt hfail hok hle
    obtain ⟨e, he⟩ := hfail 0 (Nat.succ_pos k)
    rw [Nat.add_zero] at he
    rw [retryAux_eq_err he, if_pos (show attempt < maxRetries - 1 by omega)]
    have hrec := ih (attempt + 1)
      (fun i hi => by
        obtain ⟨e', he'⟩ := hfail (i + 1) (by omega)
        exact ⟨e', by rw [← he']; congr 1; omega⟩)
      (by rw [← hok]; congr 1; omega) (by omega)
    rw [hrec, range_succ_sleeps]

lemma retryAux_fail {ε α : Type} (call : ℕ → Except ε α) (backoff maxRetries : ℕ)
    (hfail : ∀ i, ∃ e, call i = .error e) (e : ε)
    (hlast : call (maxRetries - 1) = .error e) :
    ∀ (d attempt : ℕ), maxRetries - 1 - attempt = d → attempt ≤ maxRetries - 1 →
    retryAux call backoff maxRetries attempt =
      (.error e, (List.range d).map (fun i => backoff * 2 ^ (attempt + i)), d + 1) := by
  intro d
  induction d with
  | zero =>
    intro attempt hd hle
    have ha : attempt = maxRetries - 1 := by omega
    subst ha
    rw [retryAux_eq_err hlast, if_neg (by omega)]
    rfl
  | succ d ih =>
    intro attempt hd hle
    obtain ⟨e', he'⟩ := hfail attempt
    rw [retryAux_eq_err he', if_pos (show attempt < maxRetries - 1 by omega)]
    rw [ih (attempt + 1) (by omega) (by omega), range_succ_sleeps]

lemma imageRetryAux_fail {ε α : Type} (call : ℕ → Except ε (List (Option α)))
    (backoff maxRetries : ℕ) (hfail : ∀ i, ∃ e, call i = .error e) :
    ∀ (d attempt : ℕ), maxRetries - 1 - attempt = d → attempt ≤ maxRetries - 1 →
    imageRetryAux call backoff maxRetries attempt =
      (.ok ⟨none, false, true⟩,
        (List.range d).map (fun i => backoff * 2 ^ (attempt + i)), d + 1) := by
  intro d
  induction d with
  | zero =>
    intro attempt hd hle
    obtain ⟨e, he⟩ := hfail attempt
    rw [imageRetryAux_eq_err he, if_neg (by omega)]
    rfl
  | succ d ih =>
    intro attempt hd hle
    obtain ⟨e, he⟩ := hfail attempt
    rw [imageRetryAux_eq_err he, if_pos (show attempt < maxRetries - 1 by omega)]
    rw [ih (attempt + 1) (by omega) (by omega), range_succ_sleeps]

lemma retrySleeps_eq (backoff k : ℕ) :
    (List.range k).map (fun i => backoff * 2 ^ (0 + i)) = retrySleeps backoff k := by
  unfold retrySleeps
  exact List.map_congr_left fun i _ => by rw [Nat.zero_add]

lemma generate_relevance_success {ε α : Type} (call : ℕ → Except ε α)
    (maxRetries backoff k : ℕ) (a : α)
    (hfail : ∀ i < k, ∃ e', call i = .error e') (hok : call k = .ok a)
    (hk : k + 1 ≤ maxRetries) :
    generate_relevance_gemini call maxRetries backoff =
      (some (.ok a), retrySleeps backoff k, k + 1) := by
  unfold generate_relevance_gemini
  rw [if_neg (by omega)]
  have h := retryAux_success call backoff maxRetries a k 0
    (fun i hi => by simpa using hfail i hi) (by simpa using hok) (by omega)
  rw [h, retrySleeps_eq]

lemma generate_relevance_fail {ε α : Type} (call : ℕ → Except ε α)
    (maxRetries backoff : ℕ) (e : ε)
    (hfail : ∀ i, ∃ e', call i = .error e')
    (hlast : call (maxRetries - 1) = .error e) (h1 : 1 ≤ maxRetries) :
    generate_relevance_gemini call maxRetries backoff =
      (some (.error e), retrySleeps backoff (maxRetries - 1), maxRetries) := by
  unfold generate_relevance_gemini
  rw [if_neg (by omega)]
  have h := retryAux_fail call backoff maxRetries hfail e hlast (maxRetries - 1) 0
    (by omega) (by omega)
  rw [h, retrySleeps_eq, Nat.sub_add_cancel h1]

lemma generate_image_fail {ε α : Type} (call : ℕ → Except ε (List (Option α)))
    (maxRetries backoff : ℕ) (hfail : ∀ i, ∃ e, call i = .error e)
    (h1 : 1 ≤ maxRetries) :
    generate_image_from_solution call maxRetries backoff =
      (some (.ok ⟨none, false, true⟩), retrySleeps backoff (maxRetries - 1), maxRetries) := by
  unfold generate_image_from_solution
  rw [if_neg (by omega)]
  have h := imageRetryAux_fail call backoff maxRetries hfail (maxRetries - 1) 0
    (by omega) (by omega)
  rw [h, retrySleeps_eq, Nat.sub_add_cancel h1]

/-- C1: for a scoring call that fails exactly `k` times then succeeds, with
`maxRetries ≥ k+1`, `generate_relevance_gemini` returns the success result
after exactly `k` backoff sleeps of durations `backoff·2^0, …,
backoff·2^(k-1)` (it makes `k+1` attempts); for a call that always fails,
with `maxRetries = m ≥ 1`, it raises the last exception after exactly `m`
attempts. -/
theorem generate_relevance_retry_spec {ε α : Type} (call : ℕ → Except ε α)
    (maxRetries backoff k : ℕ) (a : α) (e : ε) :
    ((∀ i < k, ∃ e', call i = .error e') → call k = .ok a → k + 1 ≤ maxRetries →
      generate_relevance_gemini call maxRetries backoff =
        (some (.ok a), retrySleeps backoff k, k + 1)) ∧
    ((∀ i, ∃ e', call i = .error e') → call (maxRetries - 1) = .error e →
      1 ≤ maxRetries →
      generate_relevance_gemini call maxRetries backoff =
        (some (.error e), retrySleeps backoff (maxRetries - 1), maxRetries)) :=
  ⟨fun hfail hok hk => generate_relevance_success call maxRetries backoff k a hfail hok hk,
   fun hfail hlast h1 => generate_relevance_fail call maxRetries backoff e hfail hlast h1⟩

/-- Witness for C1: a call failing twice then succeeding, with
`maxRetries = 3`, `backoff = 2`: success after sleeps `[2, 4]` and 3
attempts; an always-failing call with `maxRetries = 3`: the exception
surfaces after sleeps `[2, 4]` and exactly 3 attempts. -/
theorem generate_relevance_retry_spec_witness :
    generate_relevance_gemini
        (fun i => if i < 2 then (.error "boom" : Except String String) else .ok "42") 3 2 =
      (some (.ok "42"), [2, 4], 3) ∧
    generate_relevance_gemini (fun _ => (.error "boom" : Except String String)) 3 2 =
      (some (.error "boom"), [2, 4], 3) := by
  constructor
  · have h := (generate_relevance_retry_spec
        (fun i => if i < 2 then (.error "boom" : Except String String) else .ok "42")
        3 2 2 "42" "boom").1
        (fun i hi => ⟨"boom", if_pos hi⟩) (if_neg (by omega)) (by omega)
    rw [h]
    rfl
  · have h := (generate_relevance_retry_spec
        (fun _ => (.error "boom" : Except String String)) 3 2 0 "42" "boom").2
        (fun _ => ⟨"boom", rfl⟩) rfl (by omega)
    rw [h]
    rfl

/-- C2 counterexample: the retry pattern is not applied identically.  With a
remote call that fails on every attempt and `maxRetries = 1`, the scoring
wrapper re-raises the exception, but the image wrapper returns normally —
`None` plus an error message — and never surfaces the exception. -/
theorem image_retry_not_identical :
    generate_relevance_gemini (fun _ => (.error "boom" : Except String String)) 1 2 =
      (some (.error "boom"), [], 1) ∧
    generate_image_from_solution
        (fun _ => (.error "boom" : Except String (List (Option Unit)))) 1 2 =
      (some (.ok ⟨none, false, true⟩), [], 1) ∧
    ∀ e : String,
      (generate_image_from_solution
          (fun _ => (.error "boom" : Except String (List (Option Unit)))) 1 2).1 ≠
        some (.error e) := by
  have h1 := generate_relevance_fail (fun _ => (.error "boom" : Except String String))
    1 2 "boom" (fun _ => ⟨"boom", rfl⟩) rfl (by omega)
  have h2 := generate_image_fail
    (fun _ => (.error "boom" : Except String (List (Option Unit)))) 1 2
    (fun _ => ⟨"boom", rfl⟩) (by omega)
  refine ⟨?_, ?_, ?_⟩
  · rw [h1]
    rfl
  · rw [h2]
    rfl
  · intro e h
    rw [h2] at h
    simp at h

/-- C2 amended: the backoff schedule and attempt count are identical across
the three wrappers, but on the final exhausted attempt the image wrapper
shows an error message and returns `None` to its caller instead of raising;
the scoring and synthesis wrappers raise.  For an image call failing on all
`maxRetries ≥ 1` attempts: result `None` with the error message shown, no
exception, after the same sleeps and the same number of attempts as the
scoring/synthesis wrappers under an always-failing call. -/
theorem image_retry_spec {ε α β : Type} (callI : ℕ → Except ε (List (Option α)))
    (callR : ℕ → Except ε β) (maxRetries backoff : ℕ)
    (hI : ∀ i, ∃ e, callI i = .error e) (h1 : 1 ≤ maxRetries) :
    generate_image_from_solution callI maxRetries backoff =
      (some (.ok ⟨none, false, true⟩), retrySleeps backoff (maxRetries - 1), maxRetries) ∧
    ((∀ i, ∃ e, callR i = .error e) →
      ((generate_image_from_solution callI maxRetries backoff).2 =
          (generate_relevance_gemini callR maxRetries backoff).2 ∧
        (generate_image_from_solution callI maxRetries backoff).2 =
          (generate_solution_gemini callR maxRetries backoff).2)) := by
  have himg := generate_image_fail callI maxRetries backoff hI h1
  refine ⟨himg, fun hR => ?_⟩
  obtain ⟨e, he⟩ := hR (maxRetries - 1)
  have hrel := generate_relevance_fail callR maxRetries backoff e hR he h1
  have hsol : generate_solution_gemini callR maxRetries backoff =
      (some (.error e), retrySleeps backoff (maxRetries - 1), maxRetries) := by
    unfold generate_solution_gemini
    rw [if_neg (by omega)]
    have h := retryAux_fail callR backoff maxRetries hR e he (maxRetries - 1) 0
      (by omega) (by omega)
    rw [h, retrySleeps_eq, Nat.sub_add_cancel h1]
  rw [himg, hrel, hsol]
  exact ⟨rfl, rfl⟩

/-- Witness for C2's amended claim: always-failing calls, `maxRetries = 2`,
`backoff = 3`: the image wrapper returns `None` with the error message after
one sleep of 3 seconds and 2 attempts, matching the scoring wrapper's
schedule. -/
theorem image_retry_spec_witness :
    generate_image_from_solution
        (fun _ => (.error "x" : Except String (List (Option Unit)))) 2 3 =
      (some (.ok ⟨none, false, true⟩), [3], 2) ∧
    (generate_image_from_solution
        (fun _ => (.error "x" : Except String (List (Option Unit)))) 2 3).2 =
      (generate_relevance_gemini (fun _ => (.error "x" : Except String String)) 2 3).2 := by
  have h := image_retry_spec
      (fun _ => (.error "x" : Except String (List (Option Unit))))
      (fun _ => (.error "x" : Except String String)) 2 3
      (fun _ => ⟨"x", rfl⟩) (by omega)
  refine ⟨?_, (h.2 (fun _ => ⟨"x", rfl⟩)).1⟩
  rw [h.1]
  rfl

/-! ### Scoring loop (lines 337-361)

The relevance_str column is initialised to the empty string for every row;
the loop visits rows in table order, and only when pd.notna holds of the
要約 cell sends the abstract to
the scoring API and stores the reply. -/

/-- The scoring loop.  A cell is `Option String` (`none` = NaN); `f` is the
reply of the (successful) scoring call for a given abstract.  Returns the
`relevance_str` column in row order and the list of abstracts sent to the
API, in visit order. -/
def scoreRows (f : String → String) : List (Option String) → List String × List String
  | [] => ([], [])
  | some t :: rest =>
    let r := scoreRows f rest
    (f t :: r.1, t :: r.2)
  | none :: rest =>
    let r := scoreRows f rest
    ("" :: r.1, r.2)

lemma scoreRows_snd (f : String → String) (rows : List (Option String)) :
    (scoreRows f rows).2 = rows.filterMap id := by
  induction rows with
  | nil => rfl
  | cons r rest ih => cases r <;> simp [scoreRows, ih]

lemma scoreRows_fst (f : String → String) (rows : List (Option String)) :
    (scoreRows f rows).1 =
      rows.map (fun r => match r with | some t => f t | none => "") := by
  induction rows with
  | nil => rfl
  | cons r rest ih => cases r <;> simp [scoreRows, ih]

/-! ### Top-N selection (lines 367-369): df.nlargest over the relevance column -/

/-- The order `nlargest` sorts by: row `a` comes before row `b` when
`a`'s score is at least `b`'s.  With a stable sort this realises pandas
keep=first tie-breaking (original order among equal scores). -/
def scoreGE (a b : ℕ × ℚ) : Prop := b.2 ≤ a.2

instance : DecidableRel scoreGE := fun a b => inferInstanceAs (Decidable (b.2 ≤ a.2))

instance : IsTotal (ℕ × ℚ) scoreGE := ⟨fun a b => le_total b.2 a.2⟩

instance : IsTrans (ℕ × ℚ) scoreGE := ⟨fun _ _ _ h1 h2 => le_trans h2 h1⟩

/-- df.nlargest on the indexed score column: a stable
sort by descending score, then the first `n` rows. -/
def top_n_relevance (n : ℕ) (scores : List ℚ) : List (ℕ × ℚ) :=
  (scores.enum.insertionSort scoreGE).take n

/-! ### Image prompt (lines 190-197) -/

/-- Python `s[:n]`: the first `n` characters (code points). -/
def pySlice (s : String) (n : ℕ) : String := ⟨s.data.take n⟩

/-- The fixed text of the image-generation prompt up to the embedded
narrative. -/
def image_prompt_header (product_type : String) : String :=
  "以下は" ++ product_type ++ "に関するソリューション案の文章です。
・この文章からソリューションの特徴（外観、材質、形状、機能など）を理解し、その特徴を反映したリアルな製品の写真を生成してください。
・必ず製品が明確に見える構図で、特徴が分かる美しい写真にしてください。
・ソリューション案に記載されている「ユーザー体験」や物語のシーンの中でのソリューションを視覚化してください。
・登場する人物の表情は幸せそうで、楽しんでいる雰囲気を出した写真としてください。

ソリューション案:
"

/-- The prompt sent to the image endpoint: the fixed header followed by
`solution_text[:10000]` (line 197). -/
def image_prompt (product_type solution_text : String) : String :=
  image_prompt_header product_type ++ pySlice solution_text 10000

/-! ### Orchestrator (lines 303-407) -/

/-- Reasons the run halts (`st.stop()`) before completing. -/
inductive Halt
  | missingFile
  | missingKey
  | loadError
  | schemaError
  deriving DecidableEq

/-- One remote API call, recorded in the order the orchestrator makes
them. -/
inductive RemoteCall
  | score (text : String)
  | synthesize (text : String)
  | image (text : String)
  deriving DecidableEq

/-- The loaded spreadsheet: its column names and its 要約 column
(cells may be NaN). -/
structure Table where
  columns : List String
  rows : List (Option String)

/-- The required abstract column name (line 323). -/
def requiredColumn : String := "要約"

/-- The 要約 cell of selected row `i` as handed to the single-space join
(lines 376-377).  A NaN cell there would be a `TypeError` in the Python
join; it is modelled as `""` and is unreachable in the scenarios proved
here. -/
def abstractAt (rows : List (Option String)) (i : ℕ) : String :=
  ((rows.get? i).getD none).getD ""

/-- Lines 376-377: the single-space join of the selected 要約 cells. -/
def all_solutions_combined (rows : List (Option String)) (sel : List (ℕ × ℚ)) : String :=
  String.intercalate " " (sel.map fun p => abstractAt rows p.1)

/-- What a completed run displays. -/
structure RunOutput (α : Type) where
  selected : List (ℕ × ℚ)
  solution : String
  image : Option α

/-- The main flow behind the `分析開始` button (lines 303-407): input
checks, load, required-column check, scoring loop, percentage parse, top-N,
join, synthesis, image generation.  Remote calls are successful-path
oracles (`scoreF`, `synthF` give reply texts, `imageParts` the image
response's parts); the retry wrappers around them are modelled separately
above.  Returns the outcome and the trace of remote calls in order. -/
def runAnalysis {α : Type} (hasFile hasKey : Bool) (loaded : Option Table)
    (scoreF synthF : String → String) (imageParts : List (Option α))
    (top_n : ℕ) (product_type : String) :
    Except Halt (RunOutput α) × List RemoteCall :=
  if !hasFile then (.error .missingFile, [])
  else if !hasKey then (.error .missingKey, [])
  else
    match loaded with
    | none => (.error .loadError, [])
    | some df =>
      if requiredColumn ∈ df.columns then
        let scored := scoreRows scoreF df.rows
        let relevance := scored.1.map extract_percentage
        let sel := top_n_relevance top_n relevance
        let combined := all_solutions_combined df.rows sel
        let solution := synthF combined
        let img := (imageFromParts imageParts).1
        (.ok ⟨sel, solution, img⟩,
          scored.2.map RemoteCall.score ++
            [RemoteCall.synthesize combined,
             RemoteCall.image (image_prompt product_type solution)])
      else (.error .schemaError, [])

/-- The 3-row table of the end-to-end scenario. -/
def demoRows : List (Option String) :=
  [some "biodegradable film", some "metal can", some "recyclable fiber"]

/-- The scoring oracle of the end-to-end scenario: replies "90", "20",
"75" for the three abstracts respectively. -/
def demoReply (t : String) : String :=
  if t = "biodegradable film" then "90"
  else if t = "metal can" then "20"
  else "75"

/-! Stability of the top-N sort among equal scores. -/

lemma filter_orderedInsert (v : ℚ) (a : ℕ × ℚ) (l : List (ℕ × ℚ)) :
    (l.orderedInsert scoreGE a).filter (fun p => p.2 = v) =
      if a.2 = v then a :: l.filter (fun p => p.2 = v)
      else l.filter (fun p => p.2 = v) := by
  rw [List.orderedInsert_eq_take_drop, List.filter_append]
  by_cases ha : a.2 = v
  · rw [if_pos ha]
    have htake : (l.takeWhile fun b => decide ¬scoreGE a b).filter (fun p => p.2 = v) = [] := by
      rw [List.filter_eq_nil_iff]
      intro b hb
      have hnb := List.mem_takeWhile_imp hb
      rw [decide_eq_true_eq] at hnb
      have : v < b.2 := by
        have := not_le.mp (fun h => hnb h)
        rw [ha] at this
        exact this
      simp only [decide_eq_true_eq]
      exact fun hbv => absurd hbv (by rw [hbv] at this ⊢; exact absurd this (lt_irrefl v))
    rw [htake, List.nil_append, List.filter_cons, if_pos (by simp [ha])]
    refine congrArg _ ?_
    conv_rhs => rw [← List.takeWhile_append_dropWhile
      (p := fun b => decide ¬scoreGE a b) (l := l)]
    rw [List.filter_append, htake, List.nil_append]
  · rw [if_neg ha, List.filter_cons, if_neg (by simp [ha])]
    conv_rhs => rw [← List.takeWhile_append_dropWhile
      (p := fun b => decide ¬scoreGE a b) (l := l)]
    rw [List.filter_append]

lemma filter_insertionSort (v : ℚ) (l : List (ℕ × ℚ)) :
    (l.insertionSort scoreGE).filter (fun p => p.2 = v) =
      l.filter (fun p => p.2 = v) := by
  induction l with
  | nil => rfl
  | cons a l ih =>
    rw [List.insertionSort, filter_orderedInsert, ih, List.filter_cons]
    by_cases ha : a.2 = v
    · rw [if_pos ha, if_pos (by simp [ha])]
    · rw [if_neg ha, if_neg (by simp [ha])]

/-- C4: for every scored table and every `n`: if `n ≤` table size the
selection has exactly `n` rows; if `n >` table size it has exactly
table-size rows with no error; every selected row's score is ≥ every
unselected row's score; and among rows of equal score the selection is a
subsequence of the original order (stable ties). -/
theorem top_n_spec (scores : List ℚ) (n : ℕ) :
    (n ≤ scores.length → (top_n_relevance n scores).length = n) ∧
    (scores.length ≤ n → (top_n_relevance n scores).length = scores.length) ∧
    (∀ p ∈ top_n_relevance n scores, ∀ q ∈ scores.enum,
      q.1 ∉ (top_n_relevance n scores).map Prod.fst → q.2 ≤ p.2) ∧
    (∀ v : ℚ, List.Sublist ((top_n_relevance n scores).filter (fun p => p.2 = v))
      (scores.enum.filter (fun p => p.2 = v))) := by
  have hlen : (scores.enum.insertionSort scoreGE).length = scores.length := by
    rw [List.length_insertionSort, List.enum_length]
  refine ⟨?_, ?_, ?_, ?_⟩
  · intro h
    rw [top_n_relevance, List.length_take, hlen]
    omega
  · intro h
    rw [top_n_relevance, List.length_take, hlen]
    omega
  · intro p hp q hq hq1
    have hsort : (scores.enum.insertionSort scoreGE).Sorted scoreGE :=
      List.sorted_insertionSort scoreGE scores.enum
    have hqmem : q ∈ scores.enum.insertionSort scoreGE := by
      rw [List.mem_insertionSort]
      exact hq
    rw [← List.take_append_drop n (scores.enum.insertionSort scoreGE),
      List.mem_append] at hqmem
    rcases hqmem with hqt | hqd
    · exact absurd (List.mem_map_of_mem Prod.fst hqt) hq1
    · exact hsort.rel_of_mem_take_of_mem_drop hp hqd
  · intro v
    rw [top_n_relevance, ← filter_insertionSort v scores.enum]
    exact (List.take_sublist n _).filter _

/-- Witness for C4 at the scenario table: scores 90, 20, 75 and `n = 2`
give exactly 2 selected rows; with `n = 5` the selection is clamped to all
3 rows. -/
theorem top_n_spec_witness :
    (top_n_relevance 2 [90, 20, 75]).length = 2 ∧
    (top_n_relevance 5 [90, 20, 75]).length = 3 := by
  constructor
  · exact (top_n_spec [90, 20, 75] 2).1 (by simp)
  · exact (top_n_spec [90, 20, 75] 5).2.1 (by simp)

/-- C5: during scoring, rows are visited in table order and only rows with
a non-null abstract are sent to the API — the sequence of texts sent is
exactly the non-null abstracts in table order; every other row keeps the
initialised `relevance_str = ""`, which the parsing pass turns into the
default zero score, and contributes no API call. -/
theorem scoring_loop_spec (f : String → String) (rows : List (Option String)) :
    (scoreRows f rows).2 = rows.filterMap id ∧
    (scoreRows f rows).1 =
      rows.map (fun r => match r with | some t => f t | none => "") ∧
    (scoreRows f rows).1.map extract_percentage =
      rows.map (fun r =>
        match r with | some t => extract_percentage (f t) | none => 0) := by
  refine ⟨scoreRows_snd f rows, scoreRows_fst f rows, ?_⟩
  rw [scoreRows_fst, List.map_map]
  refine List.map_congr_left fun r _ => ?_
  cases r <;> rfl

set_option maxRecDepth 16000 in
/-- C6: end-to-end scenario — 3 rows with abstracts "biodegradable film",
"metal can", "recyclable fiber", scoring replies "90", "20", "75", and
topN = 2: the selected rows are indices 0 and 2 with scores 90 and 75, the
synthesizer receives "biodegradable film recyclable fiber" (the selected
abstracts joined by a single space, in selection order), and in the full
run the synthesis call carries exactly that combined text. -/
theorem combined_input_scenario :
    top_n_relevance 2 ((scoreRows demoReply demoRows).1.map extract_percentage) =
      [(0, 90), (2, 75)] ∧
    all_solutions_combined demoRows
      (top_n_relevance 2 ((scoreRows demoReply demoRows).1.map extract_percentage)) =
      "biodegradable film recyclable fiber" ∧
    (runAnalysis true true (some ⟨[requiredColumn], demoRows⟩) demoReply
        (fun _ => "SOL") ([] : List (Option Unit)) 2 "飲料").2.get? 3 =
      some (.synthesize "biodegradable film recyclable fiber") := by
  exact ⟨by decide, by decide, by decide⟩

/-- C7: when the loaded table lacks the required 要約 column, the run
halts with the schema error and the remote-call trace is empty — no remote
API call is made and no further processing occurs. -/
theorem schema_error_halts {α : Type} (df : Table) (scoreF synthF : String → String)
    (imageParts : List (Option α)) (n : ℕ) (pt : String)
    (h : requiredColumn ∉ df.columns) :
    runAnalysis true true (some df) scoreF synthF imageParts n pt =
      (.error .schemaError, []) := by
  simp [runAnalysis, h]

/-- Witness for C7: a table whose only column is タイトル halts with
the schema error and makes no remote call. -/
theorem schema_error_halts_witness :
    runAnalysis true true (some ⟨["タイトル"], [some "x"]⟩) (fun _ => "90")
      (fun _ => "SOL") ([] : List (Option Unit)) 2 "飲料" =
      (.error .schemaError, []) :=
  schema_error_halts ⟨["タイトル"], [some "x"]⟩ (fun _ => "90") (fun _ => "SOL")
    ([] : List (Option Unit)) 2 "飲料" (by decide)

/-- C8: if the image response has zero image-bearing parts, the parts scan
returns `None` after showing the no-image warning (no crash); when image
parts exist, the first inline payload among the parts is returned and no
warning is shown. -/
theorem image_parts_spec {α : Type} (parts : List (Option α)) :
    ((∀ p ∈ parts, p = none) → imageFromParts parts = (none, true)) ∧
    (∀ (pre : List (Option α)) (d : α) (rest : List (Option α)),
      parts = pre ++ some d :: rest → (∀ p ∈ pre, p = none) →
      imageFromParts parts = (some d, false)) := by
  constructor
  · intro h
    induction parts with
    | nil => rfl
    | cons p rest ih =>
      have hp : p = none := h p (List.mem_cons_self p rest)
      subst hp
      rw [imageFromParts]
      exact ih fun q hq => h q (List.mem_cons_of_mem none hq)
  · intro pre d rest hdecomp hpre
    subst hdecomp
    induction pre with
    | nil => rfl
    | cons p pre ih =>
      have hp : p = none := hpre p (List.mem_cons_self p pre)
      subst hp
      rw [List.cons_append, imageFromParts]
      exact ih fun q hq => hpre q (List.mem_cons_of_mem none hq)

/-- Witness for C8: all-`none` parts give `(none, warning shown)`; parts
`[none, some 7, some 9]` give the first inline payload `7` with no
warning. -/
theorem image_parts_spec_witness :
    imageFromParts ([none, none] : List (Option ℕ)) = (none, true) ∧
    imageFromParts ([none, some 7, some 9] : List (Option ℕ)) = (some 7, false) := by
  constructor
  · exact (image_parts_spec ([none, none] : List (Option ℕ))).1 (by decide)
  · exact (image_parts_spec ([none, some 7, some 9] : List (Option ℕ))).2
      [none] 7 [some 9] rfl (by decide)

/-- C9: the image prompt embeds the narrative truncated to its first
10,000 characters: a narrative of length ≤ 10000 is embedded whole; for a
longer narrative the embedded text has exactly 10000 characters and is an
initial segment of the narrative. -/
theorem image_prompt_spec (pt s : String) :
    (s.length ≤ 10000 → image_prompt pt s = image_prompt_header pt ++ s) ∧
    (10000 ≤ s.length → ∃ t : String,
      image_prompt pt s = image_prompt_header pt ++ t ∧
      t.length = 10000 ∧ t.data ++ s.data.drop 10000 = s.data) := by
  constructor
  · intro h
    unfold image_prompt pySlice
    rw [List.take_of_length_le h]
  · intro h
    refine ⟨pySlice s 10000, rfl, ?_, ?_⟩
    · show (s.data.take 10000).length = 10000
      rw [List.length_take]
      have : s.data.length = s.length := rfl
      omega
    · show s.data.take 10000 ++ s.data.drop 10000 = s.data
      exact List.take_append_drop 10000 s.data

/-- Witness for C9: a short narrative is embedded whole; a narrative of
10,001 copies of `a` is cut to an initial segment of exactly 10,000
characters. -/
theorem image_prompt_spec_witness :
    image_prompt "飲料" "abc" = image_prompt_header "飲料" ++ "abc" ∧
    ∃ t : String,
      image_prompt "飲料" ⟨List.replicate 10001 'a'⟩ =
        image_prompt_header "飲料" ++ t ∧
      t.length = 10000 ∧
      t.data ++ (List.replicate 10001 'a').drop 10000 = List.replicate 10001 'a' := by
  constructor
  · exact (image_prompt_spec "飲料" "abc").1 (by decide)
  · exact (image_prompt_spec "飲料" ⟨List.replicate 10001 'a'⟩).2
      (by rw [show (⟨List.replicate 10001 'a'⟩ : String).length =
        (List.replicate 10001 'a').length from rfl, List.length_replicate]; omega)

/-- C10: a row skipped during scoring (NaN abstract) keeps the empty
raw-reply string, is assigned score 0.0 by the parsing pass
(`extract_percentage "" = 0`), and remains in the score column handed to
top-N selection (same length, same position); concretely, with one scored
row and one skipped row and topN = 2, the selection includes the
never-scored row with score 0. -/
theorem skipped_row_spec (f : String → String) (rows : List (Option String)) :
    ((scoreRows f rows).1.length = rows.length ∧
      ∀ i : ℕ, rows[i]? = some none →
        (scoreRows f rows).1[i]? = some "" ∧
        ((scoreRows f rows).1.map extract_percentage)[i]? = some 0) ∧
    extract_percentage "" = 0 ∧
    top_n_relevance 2
        ((scoreRows (fun _ => "50") [none, some "x"]).1.map extract_percentage) =
      [(1, 50), (0, 0)] := by
  refine ⟨⟨?_, ?_⟩, rfl, by decide⟩
  · rw [scoreRows_fst, List.length_map]
  · intro i hi
    constructor
    · rw [scoreRows_fst, List.getElem?_map, hi]
      rfl
    · rw [scoreRows_fst, List.map_map, List.getElem?_map, hi]
      rfl

/-- Witness for C10: in the table `[some "a", none]` with every reply
`"99"`, the skipped row 1 keeps `relevance_str = ""` and score 0. -/
theorem skipped_row_spec_witness :
    (scoreRows (fun _ => "99") [some "a", none]).1[1]? = some "" ∧
    ((scoreRows (fun _ => "99") [some "a", none]).1.map extract_percentage)[1]? =
      some 0 :=
  (skipped_row_spec (fun _ => "99") [some "a", none]).1.2 1 rfl

end IdeaGen
